import Mathlib

/-!
Shallow embedding of the dynamic compound-type introspection and binary
record-decoding subsystem of a Go HDF5 wrapper (`dynamic.go`).

Modelling conventions:
* Calls into the external HDF5 engine (`H5PTget_next`, `H5PTread_packets`,
  `H5Tequal`, `H5Tget_member_*`, `H5Tclose`, ...) are abstract function
  parameters or record fields holding the engine's answers.
* Machine memory is a byte function `Nat → Nat`; multi-byte loads are
  little-endian words reduced mod 256 per byte.
* A 32-bit float value is represented by its raw 32-bit pattern: the code
  never computes with floats, it only reinterprets 4 bytes.
* Go errors become `Option HdfError` / `Except HdfError`; the wrapper's
  `h5err` turns a negative engine status into an error, modelled by
  `HdfError.engineError`.
-/

set_option autoImplicit false

namespace Hdf5Dyn

/-- Error values of the subsystem: `dynamicError c` models
`dynamic_error(c)` from `dynamic.go`; `engineError rc` models an error
produced by `h5err` from a negative engine status `rc`. -/
inductive HdfError where
  | dynamicError (code : Nat)
  | engineError (rc : Int)
  deriving DecidableEq, Repr

/-- The type-class tag of an HDF5 datatype (`TypeClass` in the wrapper);
only the compound/non-compound distinction is inspected by `dynamic.go`. -/
inductive TypeClass where
  | T_INTEGER
  | T_FLOAT
  | T_STRING
  | T_COMPOUND
  | T_OTHER
  deriving DecidableEq, Repr

/-- The four package-level native type handles that
`DynDatatype.primitiveUnpacker` compares against via `H5Tequal`:
`T_NATIVE_LLONG`, `T_NATIVE_INT`, `T_NATIVE_FLOAT`, `T_GO_STRING`. -/
inductive NativeRef where
  | nLLong
  | nInt
  | nFloat
  | nGoString
  deriving DecidableEq, Repr

/-- A dynamically discovered datatype handle (`DynDatatype` in
`dynamic.go`), as seen through the engine:
`id` is the handle (`Location.id`), `tclass` the class tag (field `class`
in Go), `members` the outcome the engine reports for resolving each
member's type in index order (an entry is `.error e` when
`H5Tget_member_class` or `H5Tget_member_type` fails at that index),
`eqTo r` the answer of `H5Tequal` against the known native handle `r`,
`memberNameF i` the string `H5Tget_member_name` produces at index `i`,
`memberOffsetF i` the offset `H5Tget_member_offset` produces, and
`size` the storage size from `H5Tget_size`. -/
inductive DynDatatype where
  | mk (id : Int) (tclass : TypeClass)
      (members : List (Except HdfError DynDatatype))
      (eqTo : NativeRef → Bool)
      (memberNameF : Nat → String)
      (memberOffsetF : Nat → Nat)
      (size : Nat)

def DynDatatype.id : DynDatatype → Int
  | .mk i _ _ _ _ _ _ => i

def DynDatatype.tclass : DynDatatype → TypeClass
  | .mk _ c _ _ _ _ _ => c

def DynDatatype.members : DynDatatype → List (Except HdfError DynDatatype)
  | .mk _ _ m _ _ _ _ => m

def DynDatatype.eqTo : DynDatatype → NativeRef → Bool
  | .mk _ _ _ e _ _ _ => e

def DynDatatype.memberNameF : DynDatatype → Nat → String
  | .mk _ _ _ _ f _ _ => f

def DynDatatype.memberOffsetF : DynDatatype → Nat → Nat
  | .mk _ _ _ _ _ f _ => f

def DynDatatype.size : DynDatatype → Nat
  | .mk _ _ _ _ _ _ s => s

/-- Replace the handle id, leaving every other component unchanged
(models the Go assignment `t.id = 0`). -/
def DynDatatype.setId : DynDatatype → Int → DynDatatype
  | .mk _ c m e n o s, i => .mk i c m e n o s

/-- Model of `DynDatatype.Close`: if the handle is still live (`id > 0`), release
it through the engine (`H5Tclose`, whose status the parameter
`engineClose` supplies), zero the id, and surface the engine status
through `h5err`; otherwise do nothing and return no error. The pair is
(returned error, datatype after the call). -/
def DynDatatype.Close (engineClose : Int → Int) (t : DynDatatype) :
    Option HdfError × DynDatatype :=
  if t.id > 0 then
    let rc := engineClose t.id
    ((if rc < 0 then some (.engineError rc) else none), t.setId 0)
  else
    (none, t)

/-- Model of `DynDatatype.NMembers`: fails with `dynamic_error(7301)` unless the
class is compound, otherwise reports the engine's member count
(`H5Tget_nmembers`, the length of the engine's member table). -/
def DynDatatype.NMembers (t : DynDatatype) : Except HdfError Nat :=
  if t.tclass ≠ .T_COMPOUND then .error (.dynamicError 7301)
  else .ok t.members.length

/-- Model of `DynDatatype.MemberType`: fails with `dynamic_error(7302)` unless the
class is compound; then queries the engine for the member's class and
type handle, propagating the engine's error if either query fails.  An
out-of-range index is an engine-level failure (negative status). -/
def DynDatatype.MemberType (t : DynDatatype) (mbr_idx : Nat) :
    Except HdfError DynDatatype :=
  if t.tclass ≠ .T_COMPOUND then .error (.dynamicError 7302)
  else
    match t.members.get? mbr_idx with
    | none => .error (.engineError (-1))
    | some r => r

/-- Model of `DynDatatype.MemberName`: returns `C.GoString(H5Tget_member_name(...))`
unconditionally — there is no class check and no error path. -/
def DynDatatype.MemberName (t : DynDatatype) (mbr_idx : Nat) : String :=
  t.memberNameF mbr_idx

/-- Model of `DynDatatype.MemberOffset`: returns `H5Tget_member_offset(...)`
unconditionally — there is no class check and no error path. -/
def DynDatatype.MemberOffset (t : DynDatatype) (mbr_idx : Nat) : Nat :=
  t.memberOffsetF mbr_idx

/-! ### Primitive unpackers -/

/-- Machine memory as the decoders see it: `byte a` is the byte stored at
address `a`, and `goString a` is the text `C.GoString` yields for the
NUL-terminated C string at the nonzero address `a` (an external runtime
routine, modelled abstractly). -/
structure Mem where
  byte : Nat → Nat
  goString : Nat → String

/-- Value of `sizeof(void*)` as reported by `_go_hdf5_sizeof_uintptr` — the
LP64 platforms the wrapper targets, so 8 bytes. -/
def ptrWidth : Nat := 8

/-- Little-endian load of `w` bytes starting at address `p`. -/
def readWord (m : Nat → Nat) (p : Nat) : Nat → Nat
  | 0 => 0
  | w + 1 => m p % 256 + 256 * readWord m (p + 1) w

/-- Two's-complement reading of a `w`-bit word as a signed integer. -/
def toSigned (w : Nat) (v : Nat) : Int :=
  if v < 2 ^ (w - 1) then (v : Int) else (v : Int) - 2 ^ w

/-- A dynamically typed scalar produced by a decoder (`interface{}` in
Go): the `int32`, `int64`, `float32` and `string` cases, plus `vNil` for
the zero `interface{}` left in an absent slot. A `float32` is carried as
its raw 32-bit pattern, since the code only reinterprets bytes. -/
inductive DynValue where
  | vInt32 (v : Int)
  | vInt64 (v : Int)
  | vFloat32 (bits : Nat)
  | vStr (s : String)
  | vNil
  deriving DecidableEq, Repr

/-- Model of `integerUnpacker`: loads an `int32` (4 bytes) at the cursor but
advances the cursor by 8. -/
def integerUnpacker (m : Mem) (p : Nat) : DynValue × Nat :=
  (.vInt32 (toSigned 32 (readWord m.byte p 4)), p + 8)

/-- Model of `longUnpacker`: loads an `int64` (8 bytes) at the cursor and advances
the cursor by 8. -/
def longUnpacker (m : Mem) (p : Nat) : DynValue × Nat :=
  (.vInt64 (toSigned 64 (readWord m.byte p 8)), p + 8)

/-- Model of `floatUnpacker`: loads a `float32` (4 bytes) at the cursor and
advances the cursor by 4. -/
def floatUnpacker (m : Mem) (p : Nat) : DynValue × Nat :=
  (.vFloat32 (readWord m.byte p 4), p + 4)

/-- Model of `stringUnpacker`: loads a pointer (`sizeof(void*)` bytes) at the
cursor; a NULL pointer decodes to the empty string, otherwise the C
string at that address is converted; advances by the pointer width. -/
def stringUnpacker (m : Mem) (p : Nat) : DynValue × Nat :=
  let c_str := readWord m.byte p ptrWidth
  let nextp := p + ptrWidth
  if c_str = 0 then (.vStr "", nextp)
  else (.vStr (m.goString c_str), nextp)

/-- The closed set of `primitiveUnpack` function values that can occupy a
decoder slot (`longUnpacker`, `integerUnpacker`, `floatUnpacker`,
`stringUnpacker`); `runPrim` maps each tag to the function it names. -/
inductive PrimUnpack where
  | longU
  | integerU
  | floatU
  | stringU
  deriving DecidableEq, Repr

def runPrim : PrimUnpack → Mem → Nat → DynValue × Nat
  | .longU => longUnpacker
  | .integerU => integerUnpacker
  | .floatU => floatUnpacker
  | .stringU => stringUnpacker

/-- The number of bytes each decoder advances the cursor by (its literal
`p + _` increment in the source). -/
def slotWidth : PrimUnpack → Nat
  | .longU => 8
  | .integerU => 8
  | .floatU => 4
  | .stringU => ptrWidth

/-- Model of `DynDatatype.primitiveUnpacker`: matches the type by `H5Tequal`
against `T_NATIVE_LLONG`, `T_NATIVE_INT`, `T_NATIVE_FLOAT`,
`T_GO_STRING` in that order; first match wins, otherwise
`dynamic_error(7307)`. -/
def DynDatatype.primitiveUnpacker (t : DynDatatype) :
    Except HdfError PrimUnpack :=
  if t.eqTo .nLLong then .ok .longU
  else if t.eqTo .nInt then .ok .integerU
  else if t.eqTo .nFloat then .ok .floatU
  else if t.eqTo .nGoString then .ok .stringU
  else .error (.dynamicError 7307)

/-- An `Unpacker` is the ordered slice `[]primitiveUnpack`, one slot per
compound member; `none` is a `nil` entry (no decoder stored). -/
structure Unpacker where
  unpackers : List (Option PrimUnpack)
  deriving DecidableEq, Repr

/-- The member loop of `MakeUnpacker` over the engine's member table: the
first member whose type fails to resolve aborts with that error;
otherwise each slot stores the member type's primitive unpacker when one
exists and `nil` (`none`) when `primitiveUnpacker` reports an
unsupported type (its error is discarded). -/
def buildSlots : List (Except HdfError DynDatatype) →
    Except HdfError (List (Option PrimUnpack))
  | [] => .ok []
  | .error e :: _ => .error e
  | .ok mt :: rest =>
    match buildSlots rest with
    | .error e => .error e
    | .ok rs => .ok (mt.primitiveUnpacker.toOption :: rs)

/-- Model of `DynDatatype.MakeUnpacker`: fails with `dynamic_error(7304)` unless
the class is compound, then runs the member loop `buildSlots`. -/
def DynDatatype.MakeUnpacker (t : DynDatatype) : Except HdfError Unpacker :=
  if t.tclass ≠ .T_COMPOUND then .error (.dynamicError 7304)
  else
    match buildSlots t.members with
    | .error e => .error e
    | .ok u => .ok ⟨u⟩

/-- The loop body of `Unpacker.Unpack`: walk the slots in order with a
byte cursor; a non-nil slot runs its decoder at the cursor and threads
the decoder's advanced cursor; a nil slot leaves the zero
`interface{}` in the result and leaves the cursor where it was. -/
def unpackLoop (m : Mem) : List (Option PrimUnpack) → Nat → List DynValue
  | [], _ => []
  | none :: rest, p => .vNil :: unpackLoop m rest p
  | some f :: rest, p =>
    let r := runPrim f m p
    r.1 :: unpackLoop m rest r.2

/-- Model of `Unpacker.Unpack`: decode one record that starts at address `p` in
memory `m` (in Go, `p` is the data pointer of the `[]byte` argument). -/
def Unpacker.Unpack (u : Unpacker) (m : Mem) (p : Nat) : List DynValue :=
  unpackLoop m u.unpackers p

/-- Total width consumed by the non-nil slots of a slot list: the sum of
their decoders' advances. -/
def consumedWidth (slots : List (Option PrimUnpack)) : Nat :=
  ((slots.filterMap (fun s => s)).map slotWidth).sum

/-! ### Table readers -/

/-- Model of `TableReader`: a stream reader bound to one table.  The native buffer
is modelled by its contents (`buffer`); `bufferCap` is its capacity,
`bytesPerRecord` the assumed record width, `remain` the count of records
not yet delivered (`int64` in Go, never driven negative). -/
structure TableReader where
  bytesPerRecord : Nat
  bufferCap : Nat
  buffer : List Nat
  remain : Nat
  deriving DecidableEq, Repr

/-- Model of `TableReader.Read`: clamp the request to what fits in the buffer and
to what remains; a zero clamped count is EOF (`nil, nil`); otherwise one
bulk `H5PTget_next` retrieval refills the buffer (the parameter `engine`
returns the buffer contents after the engine wrote `n` records, or the
negative status on failure), `remain` drops by the clamped count, and
the buffer is partitioned into that many consecutive
`bytesPerRecord`-byte views in record order. -/
def TableReader.Read (engine : Nat → Except Int (List Nat))
    (rdr : TableReader) (num : Nat) :
    Except HdfError (List (List Nat) × TableReader) :=
  let num1 := if num * rdr.bytesPerRecord > rdr.bufferCap then
      rdr.bufferCap / rdr.bytesPerRecord
    else num
  let num2 := if num1 > rdr.remain then rdr.remain else num1
  if num2 = 0 then .ok ([], rdr)
  else
    match engine num2 with
    | .error rc => .error (.engineError rc)
    | .ok newbuf =>
      .ok ((List.range num2).map
            (fun i => (newbuf.drop (i * rdr.bytesPerRecord)).take
              rdr.bytesPerRecord),
          { rdr with buffer := newbuf, remain := rdr.remain - num2 })

/-- A `Table` as this subsystem consumes it: the outcome of
`CreateIndex` and of the `H5PTget_num_packets` count query. -/
structure Table where
  createIndex : Option HdfError
  numPackets : Except Int Nat

/-- Buffer capacity `bcap := 1000000` of `MakeTableReader`. -/
def streamBufferCap : Nat := 1000000

/-- Assumed record width `per := 32` of `MakeTableReader`. -/
def streamBytesPerRecord : Nat := 32

/-- Model of `Table.MakeTableReader`: ensure the retrieval index exists, query the
total record count, allocate the fixed 1000000-byte buffer (`mallocBuf`
supplies the uninitialized contents `malloc` happens to return) and bind
the reader to the fixed assumed record width of 32 bytes. -/
def Table.MakeTableReader (t : Table) (mallocBuf : List Nat) :
    Except HdfError TableReader :=
  match t.createIndex with
  | some e => .error e
  | none =>
    match t.numPackets with
    | .error rc => .error (.engineError rc)
    | .ok n =>
      .ok { bytesPerRecord := streamBytesPerRecord,
            bufferCap := streamBufferCap,
            buffer := mallocBuf,
            remain := n }

/-- Drive a `TableReader` in a pull loop: record the size of each
non-empty pull, stopping at the first empty pull (EOF) or engine error;
`fuel` bounds the number of pulls attempted.  The engine here always
succeeds (`engine n` is the refilled buffer after an `n`-record
retrieval).  Returns the pull sizes and the reader's final state. -/
def readLoop (engine : Nat → List Nat) (req : Nat) :
    Nat → TableReader → List Nat × TableReader
  | 0, rdr => ([], rdr)
  | fuel + 1, rdr =>
    match rdr.Read (fun n => .ok (engine n)) req with
    | .error _ => ([], rdr)
    | .ok (vec, rdr') =>
      if vec.length = 0 then ([], rdr')
      else
        let rest := readLoop engine req fuel rdr'
        (vec.length :: rest.1, rest.2)

/-- Assumed record width `per := 24` of `Table.ReadPacketBytes`. -/
def bulkBytesPerRecord : Nat := 24

/-- The literal size `1000000` passed to `malloc` by
`Table.ReadPacketBytes` — a fixed allocation, independent of `count`. -/
def bulkAllocSize : Nat := 1000000

/-- Model of `Table.ReadPacketBytes`: `malloc` a fixed 1000000-byte buffer, issue
one `H5PTread_packets` retrieval of `count` records starting at absolute
position `start` (the parameter `engine` gives the memory reachable from
the buffer pointer after the engine wrote, or the negative status on
failure).  On failure the buffer is freed and `nil` comes back with no
error to distinguish it; on success the result is the flat region of the
first `count * 24` bytes at the buffer pointer.  The first component of
the pair records the byte size requested from `malloc`, so the
allocation behaviour is observable in the model. -/
def Table.ReadPacketBytes (engine : Nat → Nat → Except Int (Nat → Nat))
    (start count : Nat) : Nat × Option (List Nat) :=
  let nbytes := count * bulkBytesPerRecord
  match engine start count with
  | .error _ => (bulkAllocSize, none)
  | .ok mem => (bulkAllocSize, some ((List.range nbytes).map mem))

/-! ### Derived notions and concrete evaluation data -/

/-- The value stored in one result slot when decoding reaches that slot
with the cursor at `q`: the zero placeholder for a `nil` slot, the
decoder's produced value otherwise. -/
def slotValue (m : Mem) (q : Nat) : Option PrimUnpack → DynValue
  | none => .vNil
  | some f => (runPrim f m q).1

/-- An all-zero memory with empty strings, for evaluating decoders on a
concrete input. -/
def mem0 : Mem := ⟨fun _ => 0, fun _ => ""⟩

/-- A concrete non-compound (integer-class) datatype whose engine
reports name "x" and offset 7 at every member index. -/
def intType0 : DynDatatype :=
  .mk 42 .T_INTEGER [] (fun _ => false) (fun _ => "x") (fun _ => 7) 4

/-- A concrete datatype the engine reports equal to `T_NATIVE_INT`. -/
def intLikeType : DynDatatype :=
  .mk 5 .T_INTEGER [] (fun r => r == NativeRef.nInt) (fun _ => "") (fun _ => 0) 4

/-- Same engine equality answers as `intLikeType`, but a different class
and size. -/
def intLikeType2 : DynDatatype :=
  .mk 6 .T_FLOAT [] (fun r => r == NativeRef.nInt) (fun _ => "") (fun _ => 0) 8

/-- A concrete datatype matching none of the known native types. -/
def otherType0 : DynDatatype :=
  .mk 7 .T_OTHER [] (fun _ => false) (fun _ => "") (fun _ => 0) 2

/-- A compound type with one supported and one unsupported member. -/
def compType0 : DynDatatype :=
  .mk 9 .T_COMPOUND [.ok intLikeType, .ok otherType0]
    (fun _ => false) (fun _ => "") (fun _ => 0) 12

/-- A compound type whose second member fails to resolve. -/
def badCompType : DynDatatype :=
  .mk 10 .T_COMPOUND [.ok intLikeType, .error (.engineError (-3))]
    (fun _ => false) (fun _ => "") (fun _ => 0) 12

/-- A small concrete reader: width 2, capacity 10, 7 records left. -/
def rdr1 : TableReader := ⟨2, 10, [], 7⟩

/-- An engine that always succeeds with a full 10-byte buffer of ones. -/
def engine1 : Nat → Except Int (List Nat) := fun _ => .ok (List.replicate 10 1)

/-- A small concrete reader for the pull loop: width 2, capacity 5
(so 2 records per pull), 5 records left. -/
def rdrC4 : TableReader := ⟨2, 5, [], 5⟩

/-- A total engine for the pull loop (buffer contents irrelevant). -/
def engineC4 : Nat → List Nat := fun _ => []

/-- A small concrete reader with records remaining, for the zero-request
read. -/
def rdr10 : TableReader := ⟨4, 12, [3], 3⟩

/-- An engine for the zero-request read (never consulted). -/
def engine10 : Nat → Except Int (List Nat) := fun _ => .ok []

/-- A bulk-read engine that always succeeds with zeroed memory. -/
def engineOkB : Nat → Nat → Except Int (Nat → Nat) := fun _ _ => .ok (fun _ => 0)

/-- A bulk-read engine that always fails with status -1. -/
def engineFailB : Nat → Nat → Except Int (Nat → Nat) := fun _ _ => .error (-1)

/-! ### Helper lemmas -/

theorem runPrim_snd (f : PrimUnpack) (m : Mem) (p : Nat) :
    (runPrim f m p).2 = p + slotWidth f := by
  cases f
  · rfl
  · rfl
  · rfl
  · by_cases h : readWord m.byte p ptrWidth = 0 <;>
      simp [runPrim, stringUnpacker, slotWidth, h]

theorem consumedWidth_nil : consumedWidth [] = 0 := rfl

theorem consumedWidth_cons_none (rest : List (Option PrimUnpack)) :
    consumedWidth (none :: rest) = consumedWidth rest := by
  simp [consumedWidth]

theorem consumedWidth_cons_some (f : PrimUnpack)
    (rest : List (Option PrimUnpack)) :
    consumedWidth (some f :: rest) = slotWidth f + consumedWidth rest := by
  simp [consumedWidth]

theorem unpackLoop_length (m : Mem) (slots : List (Option PrimUnpack))
    (p : Nat) : (unpackLoop m slots p).length = slots.length := by
  induction slots generalizing p with
  | nil => rfl
  | cons s rest ih => cases s <;> simp [unpackLoop, ih]

theorem unpackLoop_get? (m : Mem) (slots : List (Option PrimUnpack))
    (p i : Nat) :
    (unpackLoop m slots p).get? i =
      (slots.get? i).map (slotValue m (p + consumedWidth (slots.take i))) := by
  induction slots generalizing p i with
  | nil => simp [unpackLoop]
  | cons s rest ih =>
    cases i with
    | zero =>
      cases s <;> simp [unpackLoop, slotValue, consumedWidth_nil]
    | succ j =>
      cases s with
      | none =>
        simpa [unpackLoop, consumedWidth_cons_none] using ih p j
      | some f =>
        have hih := ih (runPrim f m p).2 j
        simpa [unpackLoop, consumedWidth_cons_some, runPrim_snd,
          Nat.add_assoc] using hih

theorem readWord_congr {m m' : Nat → Nat} (w : Nat) :
    ∀ p, (∀ i, i < w → m (p + i) = m' (p + i)) →
    readWord m p w = readWord m' p w := by
  induction w with
  | zero => intro p _; rfl
  | succ k ih =>
    intro p h
    have h0 : m p = m' p := by simpa using h 0 (Nat.succ_pos k)
    have h' : ∀ i, i < k → m (p + 1 + i) = m' (p + 1 + i) := by
      intro i hi
      have e : p + (i + 1) = p + 1 + i := by omega
      have hx := h (i + 1) (by omega)
      rw [e] at hx
      exact hx
    simp [readWord, h0, ih (p + 1) h']

/-! ### Claim theorems -/

/-- Claim C1: `Unpack` walks its decoder slots in member-index order: the
result has one entry per slot, in slot order; a present slot's entry is
its decoder's value at the current cursor, and every decoder advances
the cursor by its fixed width; an absent slot's entry is the zero
placeholder `vNil` and contributes nothing to the cursor (the cursor at
slot `i` is the start plus the widths of the *present* slots before
`i` only). -/
theorem c1_unpack_walk (u : Unpacker) (m : Mem) (p : Nat) :
    (u.Unpack m p).length = u.unpackers.length ∧
    (∀ f q, (runPrim f m q).2 = q + slotWidth f) ∧
    (∀ i, (u.Unpack m p).get? i =
      (u.unpackers.get? i).map
        (slotValue m (p + consumedWidth (u.unpackers.take i)))) :=
  ⟨unpackLoop_length m u.unpackers p, fun f q => runPrim_snd f m q,
    fun i => unpackLoop_get? m u.unpackers p i⟩

/-- Claim C5 (amended): the 64-bit integer decoder advances 8 bytes, the
32-bit integer decoder advances **8** bytes while its value depends only
on the 4 bytes at the cursor, the 32-bit float decoder advances 4
bytes, and the string decoder advances pointer-width bytes; the long and
float decoders consume exactly the bytes they read. -/
theorem c5_decoder_widths (m m' : Mem) (p : Nat) :
    (longUnpacker m p).2 = p + 8 ∧
    (integerUnpacker m p).2 = p + 8 ∧
    (floatUnpacker m p).2 = p + 4 ∧
    (stringUnpacker m p).2 = p + ptrWidth ∧
    ((∀ i, i < 4 → m.byte (p + i) = m'.byte (p + i)) →
      (integerUnpacker m p).1 = (integerUnpacker m' p).1) ∧
    ((∀ i, i < 8 → m.byte (p + i) = m'.byte (p + i)) →
      (longUnpacker m p).1 = (longUnpacker m' p).1) ∧
    ((∀ i, i < 4 → m.byte (p + i) = m'.byte (p + i)) →
      (floatUnpacker m p).1 = (floatUnpacker m' p).1) := by
  refine ⟨rfl, rfl, rfl, runPrim_snd .stringU m p, ?_, ?_, ?_⟩
  · intro h
    simp [integerUnpacker, readWord_congr 4 p h]
  · intro h
    simp [longUnpacker, readWord_congr 8 p h]
  · intro h
    simp [floatUnpacker, readWord_congr 4 p h]

/-- Claim C5 counterexample: at cursor 0 in an all-zero memory, the 32-bit
integer decoder advances the cursor to 8, not to 0 + 4 as the claim
states. -/
theorem c5_counterexample : (integerUnpacker mem0 0).2 ≠ 0 + 4 := by decide

theorem c5_decoder_widths_witness :
    (longUnpacker mem0 0).2 = 0 + 8 ∧
    (integerUnpacker mem0 0).1 = (integerUnpacker mem0 0).1 := by
  have h := c5_decoder_widths mem0 mem0 0
  exact ⟨h.1, h.2.2.2.2.1 (fun i _ => rfl)⟩

/-- Claim C7: `primitiveUnpacker` tests engine type-equality against the
known native types in the fixed order LLONG, INT, FLOAT, GO_STRING,
returns the first match's decoder, fails with `dynamic_error(7307)` when
none matches, and depends on nothing but the equality answers (no
fallback on class or size). -/
theorem c7_primitive_selection (t t' : DynDatatype) :
    (t.eqTo .nLLong = true → t.primitiveUnpacker = .ok .longU) ∧
    (t.eqTo .nLLong = false → t.eqTo .nInt = true →
      t.primitiveUnpacker = .ok .integerU) ∧
    (t.eqTo .nLLong = false → t.eqTo .nInt = false → t.eqTo .nFloat = true →
      t.primitiveUnpacker = .ok .floatU) ∧
    (t.eqTo .nLLong = false → t.eqTo .nInt = false → t.eqTo .nFloat = false →
      t.eqTo .nGoString = true → t.primitiveUnpacker = .ok .stringU) ∧
    (t.eqTo .nLLong = false → t.eqTo .nInt = false → t.eqTo .nFloat = false →
      t.eqTo .nGoString = false →
      t.primitiveUnpacker = .error (.dynamicError 7307)) ∧
    (t.eqTo = t'.eqTo → t.primitiveUnpacker = t'.primitiveUnpacker) := by
  refine ⟨fun h1 => ?_, fun h1 h2 => ?_, fun h1 h2 h3 => ?_,
    fun h1 h2 h3 h4 => ?_, fun h1 h2 h3 h4 => ?_, fun he => ?_⟩ <;>
    simp [DynDatatype.primitiveUnpacker, *]

theorem c7_primitive_selection_witness :
    intLikeType.primitiveUnpacker = .ok .integerU ∧
    intLikeType.primitiveUnpacker = intLikeType2.primitiveUnpacker :=
  ⟨(c7_primitive_selection intLikeType intLikeType2).2.1 rfl rfl,
    (c7_primitive_selection intLikeType intLikeType2).2.2.2.2.2 rfl⟩

/-- Claim C6 (amended): for a non-compound type the member *count* and
member *type* accessors fail with a not-compound dynamic error
(7301 resp. 7302), but `MemberName` and `MemberOffset` perform no class
check at all: they pass the engine's answers through unconditionally and
have no error path. -/
theorem c6_accessors_non_compound (t : DynDatatype)
    (h : t.tclass ≠ TypeClass.T_COMPOUND) :
    t.NMembers = .error (.dynamicError 7301) ∧
    (∀ i, t.MemberType i = .error (.dynamicError 7302)) ∧
    (∀ i, t.MemberName i = t.memberNameF i) ∧
    (∀ i, t.MemberOffset i = t.memberOffsetF i) := by
  refine ⟨?_, fun i => ?_, fun i => rfl, fun i => rfl⟩
  · unfold DynDatatype.NMembers
    rw [if_pos h]
  · unfold DynDatatype.MemberType
    rw [if_pos h]

/-- Claim C6 counterexample: `intType0` is not compound, yet its
`MemberName` accessor returns the engine's string (an ordinary value)
instead of failing with a not-compound error — `MemberName` has no error
path at all. -/
theorem c6_counterexample :
    intType0.tclass ≠ TypeClass.T_COMPOUND ∧ intType0.MemberName 0 = "x" :=
  ⟨by decide, rfl⟩

theorem c6_accessors_non_compound_witness :
    intType0.NMembers = .error (.dynamicError 7301) ∧
    intType0.MemberType 0 = .error (.dynamicError 7302) ∧
    intType0.MemberOffset 1 = intType0.memberOffsetF 1 := by
  have h := c6_accessors_non_compound intType0 (by decide)
  exact ⟨h.1, h.2.1 0, h.2.2.2 1⟩

theorem setId_id (t : DynDatatype) (i : Int) : (t.setId i).id = i := by
  cases t
  rfl

theorem close_noop (e : Int → Int) (t : DynDatatype) (h : ¬ t.id > 0) :
    t.Close e = (none, t) := by
  unfold DynDatatype.Close
  rw [if_neg h]

theorem close_snd_id_nonpos (e : Int → Int) (t : DynDatatype) :
    (t.Close e).2.id ≤ 0 := by
  unfold DynDatatype.Close
  by_cases h : t.id > 0
  · simp [h, setId_id]
  · simp [h]
    omega

/-- Claim C9: releasing a `DynDatatype` is idempotent: after a successful
`Close`, a second `Close` returns no error and leaves the state
unchanged, whatever status the engine would report (so the engine's
`H5Tclose` is not invoked again — no double-close fault). -/
theorem c9_close_idempotent (engine1c engine2c : Int → Int)
    (t : DynDatatype) (_hsucc : (t.Close engine1c).1 = none) :
    (t.Close engine1c).2.Close engine2c = (none, (t.Close engine1c).2) :=
  close_noop engine2c (t.Close engine1c).2
    (by have := close_snd_id_nonpos engine1c t; omega)

theorem c9_close_idempotent_witness :
    ((intType0.Close (fun _ => 0)).2.Close (fun _ => -1)) =
      (none, (intType0.Close (fun _ => 0)).2) :=
  c9_close_idempotent (fun _ => 0) (fun _ => -1) intType0 rfl

/-- Claim C10: a `Read` with a requested count of zero on a reader that
still has records remaining returns the empty result with no error —
the same signal as exhaustion — and leaves the reader (its `remain`
count and its buffer) unchanged; so an empty result does not imply the
table is exhausted. -/
theorem c10_read_zero (engine : Nat → Except Int (List Nat))
    (rdr : TableReader) (h : 0 < rdr.remain) :
    rdr.Read engine 0 = .ok ([], rdr) ∧ 0 < rdr.remain := by
  refine ⟨?_, h⟩
  unfold TableReader.Read
  simp

theorem c10_read_zero_witness :
    rdr10.Read engine10 0 = .ok ([], rdr10) ∧ 0 < rdr10.remain :=
  c10_read_zero engine10 rdr10 (by decide)

theorem ite_gt_min (a b : Nat) : (if a > b then b else a) = min a b := by
  split <;> omega

theorem clamp_eq (num per cap remain : Nat) (hper : 0 < per) :
    (if (if num * per > cap then cap / per else num) > remain then remain
      else (if num * per > cap then cap / per else num)) =
      min (min num (cap / per)) remain := by
  have h1 : (if num * per > cap then cap / per else num) =
      min num (cap / per) := by
    by_cases h : num * per > cap
    · have hlt : cap / per < num := by
        by_contra hc
        push_neg at hc
        have := (Nat.le_div_iff_mul_le hper).1 hc
        omega
      rw [if_pos h]
      omega
    · rw [if_neg h]
      push_neg at h
      have := (Nat.le_div_iff_mul_le hper).2 h
      omega
  rw [h1, ite_gt_min]

theorem Read_clamp_zero (engine : Nat → Except Int (List Nat))
    (rdr : TableReader) (num : Nat) (hper : 0 < rdr.bytesPerRecord)
    (h : min (min num (rdr.bufferCap / rdr.bytesPerRecord)) rdr.remain = 0) :
    rdr.Read engine num = .ok ([], rdr) := by
  unfold TableReader.Read
  simp only []
  rw [clamp_eq num rdr.bytesPerRecord rdr.bufferCap rdr.remain hper, if_pos h]

theorem Read_clamp_pos (engine : Nat → Except Int (List Nat))
    (rdr : TableReader) (num n : Nat) (buf : List Nat)
    (hper : 0 < rdr.bytesPerRecord)
    (hn : n = min (min num (rdr.bufferCap / rdr.bytesPerRecord)) rdr.remain)
    (h0 : n ≠ 0) (heng : engine n = .ok buf) :
    rdr.Read engine num =
      .ok ((List.range n).map
            (fun i => (buf.drop (i * rdr.bytesPerRecord)).take
              rdr.bytesPerRecord),
          { rdr with buffer := buf, remain := rdr.remain - n }) := by
  unfold TableReader.Read
  simp only []
  rw [clamp_eq num rdr.bytesPerRecord rdr.bufferCap rdr.remain hper, ← hn,
    if_neg h0, heng]

/-- Claim C2: `Read` delivers `n = min(requested, bufferCap / recordWidth,
remaining)` records; `n = 0` yields the empty result with no error (the
exhaustion signal); otherwise, when the engine succeeds and refills the
full buffer, `remain` drops by exactly `n` and the result is exactly `n`
views of `bytesPerRecord` bytes each, cut consecutively from the start
of the refilled buffer in record order. -/
theorem c2_read_clamp (engine : Nat → Except Int (List Nat))
    (rdr : TableReader) (num : Nat) (hper : 0 < rdr.bytesPerRecord) :
    (min (min num (rdr.bufferCap / rdr.bytesPerRecord)) rdr.remain = 0 →
      rdr.Read engine num = .ok ([], rdr)) ∧
    (∀ n buf,
      n = min (min num (rdr.bufferCap / rdr.bytesPerRecord)) rdr.remain →
      n ≠ 0 → engine n = .ok buf → buf.length = rdr.bufferCap →
      ∃ vec rdr2, rdr.Read engine num = .ok (vec, rdr2) ∧
        vec.length = n ∧
        rdr2.remain = rdr.remain - n ∧
        rdr2.bytesPerRecord = rdr.bytesPerRecord ∧
        rdr2.bufferCap = rdr.bufferCap ∧
        rdr2.buffer = buf ∧
        (∀ i, i < n → vec.get? i =
          some ((buf.drop (i * rdr.bytesPerRecord)).take
            rdr.bytesPerRecord)) ∧
        (∀ i, i < n →
          ((buf.drop (i * rdr.bytesPerRecord)).take
            rdr.bytesPerRecord).length = rdr.bytesPerRecord)) := by
  constructor
  · intro h
    exact Read_clamp_zero engine rdr num hper h
  · intro n buf hn h0 heng hlen
    have hq : n ≤ rdr.bufferCap / rdr.bytesPerRecord := by
      rw [hn]
      exact le_trans (Nat.min_le_left _ _) (Nat.min_le_right _ _)
    refine ⟨_, _, Read_clamp_pos engine rdr num n buf hper hn h0 heng,
      by simp, rfl, rfl, rfl, rfl, ?_, ?_⟩
    · intro i hi
      rw [List.get?_map, List.get?_range hi]
      rfl
    · intro i hi
      have hb : (i + 1) * rdr.bytesPerRecord ≤ rdr.bufferCap :=
        (Nat.le_div_iff_mul_le hper).1 (le_trans (Nat.succ_le_of_lt hi) hq)
      have hb2 : rdr.bytesPerRecord + i * rdr.bytesPerRecord ≤
          rdr.bufferCap := by
        rw [Nat.succ_mul] at hb
        rw [Nat.add_comm]
        exact hb
      have hble : rdr.bytesPerRecord ≤
          rdr.bufferCap - i * rdr.bytesPerRecord :=
        Nat.le_sub_of_add_le hb2
      simp [List.length_take, List.length_drop, hlen,
        Nat.min_eq_left hble]

theorem c2_read_clamp_witness :
    ∃ vec rdr2, rdr1.Read engine1 3 = .ok (vec, rdr2) ∧
      vec.length = 3 ∧ rdr2.remain = 4 := by
  obtain ⟨vec, rdr2, hread, hlen, hrem, -⟩ :=
    (c2_read_clamp engine1 rdr1 3 (by decide)).2 3 (List.replicate 10 1)
      (by decide) (by decide) rfl (by decide)
  exact ⟨vec, rdr2, hread, hlen, by rw [hrem]; decide⟩

theorem buildSlots_error :
    ∀ (ms : List (Except HdfError DynDatatype)) (i : Nat) (e : HdfError),
    ms.get? i = some (.error e) →
    (∀ j, j < i → ∃ mt, ms.get? j = some (.ok mt)) →
    buildSlots ms = .error e := by
  intro ms
  induction ms with
  | nil =>
    intro i e hi _
    simp at hi
  | cons r rest ih =>
    intro i e hi hpre
    cases i with
    | zero =>
      simp at hi
      subst hi
      rfl
    | succ j =>
      obtain ⟨mt, hmt⟩ := hpre 0 (Nat.succ_pos j)
      simp at hmt
      subst hmt
      have hrec := ih j e (by simpa using hi) (fun k hk => by
        have := hpre (k + 1) (by omega)
        simpa using this)
      simp [buildSlots, hrec]

theorem buildSlots_ok :
    ∀ (ms : List (Except HdfError DynDatatype)),
    (∀ r ∈ ms, ∃ mt, r = .ok mt) →
    ∃ slots, buildSlots ms = .ok slots ∧ slots.length = ms.length ∧
      ∀ i mt, ms.get? i = some (.ok mt) →
        slots.get? i = some mt.primitiveUnpacker.toOption := by
  intro ms
  induction ms with
  | nil =>
    intro _
    exact ⟨[], rfl, rfl, by simp⟩
  | cons r rest ih =>
    intro h
    obtain ⟨mt, hmt⟩ := h r (by simp)
    subst hmt
    obtain ⟨slots, hs, hl, hg⟩ := ih (fun x hx => h x (by simp [hx]))
    refine ⟨mt.primitiveUnpacker.toOption :: slots,
      by simp [buildSlots, hs], by simp [hl], ?_⟩
    intro i mt' hi
    cases i with
    | zero =>
      simp at hi
      subst hi
      rfl
    | succ j =>
      simpa using hg j mt' (by simpa using hi)

/-- Claim C3: for a compound type, `MakeUnpacker` is strict on member-type
resolution — the first member whose type fails to resolve aborts
construction with that underlying error — but lenient on decoder
support: when every member resolves, construction succeeds with exactly
one slot per member in member-index order, each slot holding the
member's primitive decoder when one is known and the absent marker
(`none`) when `primitiveUnpacker` reports the type unsupported. -/
theorem c3_makeUnpacker (t : DynDatatype)
    (h : t.tclass = TypeClass.T_COMPOUND) :
    (∀ i e, t.members.get? i = some (.error e) →
      (∀ j, j < i → ∃ mt, t.members.get? j = some (.ok mt)) →
      t.MakeUnpacker = .error e) ∧
    ((∀ r ∈ t.members, ∃ mt, r = .ok mt) →
      ∃ u, t.MakeUnpacker = .ok u ∧
        u.unpackers.length = t.members.length ∧
        ∀ i mt, t.members.get? i = some (.ok mt) →
          u.unpackers.get? i = some mt.primitiveUnpacker.toOption) := by
  have hc : ¬ t.tclass ≠ TypeClass.T_COMPOUND := by simp [h]
  constructor
  · intro i e hi hpre
    unfold DynDatatype.MakeUnpacker
    rw [if_neg hc, buildSlots_error t.members i e hi hpre]
  · intro hall
    obtain ⟨slots, hs, hl, hg⟩ := buildSlots_ok t.members hall
    refine ⟨⟨slots⟩, ?_, hl, hg⟩
    unfold DynDatatype.MakeUnpacker
    rw [if_neg hc, hs]

theorem c3_makeUnpacker_witness :
    badCompType.MakeUnpacker = .error (.engineError (-3)) ∧
    ∃ u, compType0.MakeUnpacker = .ok u ∧
      u.unpackers.length = compType0.members.length := by
  constructor
  · refine (c3_makeUnpacker badCompType rfl).1 1 (.engineError (-3)) rfl ?_
    intro j hj
    have hj0 : j = 0 := by omega
    subst hj0
    exact ⟨intLikeType, rfl⟩
  · have hall : ∀ r ∈ compType0.members, ∃ mt, r = Except.ok mt := by
      intro r hr
      simp [compType0, DynDatatype.members] at hr
      rcases hr with h1 | h2
      · exact ⟨intLikeType, h1⟩
      · exact ⟨otherType0, h2⟩
    obtain ⟨u, hu, hl, -⟩ := (c3_makeUnpacker compType0 rfl).2 hall
    exact ⟨u, hu, hl⟩

/-- Claim C8 (amended): `ReadPacketBytes` allocates a fixed 1000000-byte
buffer — *not* the claim's `count * recordWidth` bytes; on engine
failure it frees that buffer and returns the empty (nil) result, with no
error channel to distinguish failure; on success it returns a flat
region of exactly `count * 24` bytes. -/
theorem c8_readPacketBytes (engine : Nat → Nat → Except Int (Nat → Nat))
    (start count : Nat) (_hcount : 1 ≤ count) :
    (Table.ReadPacketBytes engine start count).1 = bulkAllocSize ∧
    (∀ rc, engine start count = .error rc →
      (Table.ReadPacketBytes engine start count).2 = none) ∧
    (∀ memf, engine start count = .ok memf →
      ∃ region, (Table.ReadPacketBytes engine start count).2 = some region ∧
        region.length = count * bulkBytesPerRecord) := by
  refine ⟨?_, fun rc h => ?_, fun memf h => ?_⟩
  · cases heng : engine start count <;>
      simp [Table.ReadPacketBytes, heng]
  · simp [Table.ReadPacketBytes, h]
  · refine ⟨(List.range (count * bulkBytesPerRecord)).map memf, ?_, by simp⟩
    simp [Table.ReadPacketBytes, h]

/-- Claim C8 counterexample: at count = 1 the size passed to `malloc` is
the fixed 1000000 bytes, not `count * 24` as the claim states. -/
theorem c8_counterexample :
    (Table.ReadPacketBytes engineOkB 0 1).1 ≠ 1 * bulkBytesPerRecord := by
  decide

theorem read_exhausted (engine : Nat → Except Int (List Nat))
    (rdr : TableReader) (num : Nat) (hper : 0 < rdr.bytesPerRecord)
    (h : rdr.remain = 0) : rdr.Read engine num = .ok ([], rdr) :=
  Read_clamp_zero engine rdr num hper (by rw [h]; simp)

theorem read_step (engine : Nat → List Nat) (req : Nat) (rdr : TableReader)
    (hq : 0 < rdr.bufferCap / rdr.bytesPerRecord)
    (hreq : rdr.bufferCap / rdr.bytesPerRecord ≤ req)
    (hrem : 0 < rdr.remain) :
    rdr.Read (fun n => .ok (engine n)) req =
      .ok ((List.range
              (min (rdr.bufferCap / rdr.bytesPerRecord) rdr.remain)).map
            (fun i =>
              ((engine (min (rdr.bufferCap / rdr.bytesPerRecord)
                  rdr.remain)).drop (i * rdr.bytesPerRecord)).take
                rdr.bytesPerRecord),
          { rdr with
            buffer := engine (min (rdr.bufferCap / rdr.bytesPerRecord)
              rdr.remain),
            remain := rdr.remain -
              min (rdr.bufferCap / rdr.bytesPerRecord) rdr.remain }) := by
  have hper : 0 < rdr.bytesPerRecord := by
    rcases Nat.eq_zero_or_pos rdr.bytesPerRecord with hz | hp
    · rw [hz] at hq
      simp at hq
    · exact hp
  have hmin : min (rdr.bufferCap / rdr.bytesPerRecord) rdr.remain =
      min (min req (rdr.bufferCap / rdr.bytesPerRecord)) rdr.remain := by
    rw [Nat.min_eq_right hreq]
  have hne : min (rdr.bufferCap / rdr.bytesPerRecord) rdr.remain ≠ 0 := by
    have h1 : 0 < min (rdr.bufferCap / rdr.bytesPerRecord) rdr.remain :=
      lt_min_iff.mpr ⟨hq, hrem⟩
    omega
  exact Read_clamp_pos (fun n => .ok (engine n)) rdr req _ _ hper hmin hne rfl

theorem readLoop_aux (engine : Nat → List Nat) (req q : Nat)
    (hq : 0 < q) (hreq : q ≤ req) :
    ∀ fuel (rdr : TableReader),
    rdr.bufferCap / rdr.bytesPerRecord = q →
    rdr.remain ≤ fuel →
    (readLoop engine req fuel rdr).1.sum = rdr.remain ∧
    (readLoop engine req fuel rdr).1.length = (rdr.remain + q - 1) / q ∧
    (∀ s ∈ (readLoop engine req fuel rdr).1, 0 < s) ∧
    (readLoop engine req fuel rdr).1.Chain' (fun a b => b ≤ a) ∧
    (readLoop engine req fuel rdr).1.head? =
      (if rdr.remain = 0 then none else some (min q rdr.remain)) ∧
    (readLoop engine req fuel rdr).2.remain = 0 ∧
    (readLoop engine req fuel rdr).2.bufferCap = rdr.bufferCap ∧
    (readLoop engine req fuel rdr).2.bytesPerRecord = rdr.bytesPerRecord := by
  intro fuel
  induction fuel with
  | zero =>
    intro rdr _ hfuel
    have h0 : rdr.remain = 0 := by omega
    have hdiv : (rdr.remain + q - 1) / q = 0 := Nat.div_eq_of_lt (by omega)
    refine ⟨by simp [readLoop, h0], by simp [readLoop, hdiv],
      by simp [readLoop], by simp [readLoop], by simp [readLoop, h0],
      by simp [readLoop, h0], by simp [readLoop], by simp [readLoop]⟩
  | succ fuel ih =>
    intro rdr hQ hfuel
    have hper : 0 < rdr.bytesPerRecord := by
      rcases Nat.eq_zero_or_pos rdr.bytesPerRecord with hz | hp
      · rw [hz] at hQ
        simp at hQ
        omega
      · exact hp
    by_cases h0 : rdr.remain = 0
    · have hread := read_exhausted (fun n => Except.ok (engine n)) rdr req
        hper h0
      have hstep : readLoop engine req (fuel + 1) rdr = ([], rdr) := by
        simp [readLoop, hread]
      have hdiv : (rdr.remain + q - 1) / q = 0 := Nat.div_eq_of_lt (by omega)
      rw [hstep]
      exact ⟨by simp [h0], by simp [hdiv], by simp, by simp, by simp [h0],
        h0, rfl, rfl⟩
    · have hrem : 0 < rdr.remain := Nat.pos_of_ne_zero h0
      have hread := read_step engine req rdr (by rw [hQ]; exact hq)
        (by rw [hQ]; exact hreq) hrem
      rw [hQ] at hread
      have hminpos : 0 < min q rdr.remain := lt_min_iff.mpr ⟨hq, hrem⟩
      have hn0 : min q rdr.remain ≠ 0 := by omega
      have hloop : readLoop engine req (fuel + 1) rdr =
          (min q rdr.remain ::
            (readLoop engine req fuel
              { rdr with
                buffer := engine (min q rdr.remain),
                remain := rdr.remain - min q rdr.remain }).1,
            (readLoop engine req fuel
              { rdr with
                buffer := engine (min q rdr.remain),
                remain := rdr.remain - min q rdr.remain }).2) := by
        simp only [readLoop, hread]
        simp [hn0]
      have hL1 : (readLoop engine req (fuel + 1) rdr).1 =
          min q rdr.remain ::
            (readLoop engine req fuel
              { rdr with
                buffer := engine (min q rdr.remain),
                remain := rdr.remain - min q rdr.remain }).1 := by
        rw [hloop]
      have hL2 : (readLoop engine req (fuel + 1) rdr).2 =
          (readLoop engine req fuel
            { rdr with
              buffer := engine (min q rdr.remain),
              remain := rdr.remain - min q rdr.remain }).2 := by
        rw [hloop]
      obtain ⟨ihsum, ihlen, ihpos, ihchain, ihhead, ihrem, ihcap, ihper⟩ :=
        ih { rdr with
              buffer := engine (min q rdr.remain),
              remain := rdr.remain - min q rdr.remain }
          (by exact hQ)
          (by show rdr.remain - min q rdr.remain ≤ fuel; omega)
      have hr2 : ({ rdr with
          buffer := engine (min q rdr.remain),
          remain := rdr.remain - min q rdr.remain } :
            TableReader).remain = rdr.remain - min q rdr.remain := rfl
      rw [hr2] at ihsum ihlen ihhead
      refine ⟨?_, ?_, ?_, ?_, ?_, ?_, ?_, ?_⟩
      · rw [hL1]
        simp only [List.sum_cons]
        rw [ihsum]
        omega
      · rw [hL1]
        simp only [List.length_cons]
        rw [ihlen]
        rcases Nat.le_total rdr.remain q with hle | hge
        · rw [Nat.min_eq_right hle]
          have e0 : rdr.remain - rdr.remain = 0 := by omega
          rw [e0]
          have h1 : (0 + q - 1) / q = 0 := Nat.div_eq_of_lt (by omega)
          have e1 : rdr.remain + q - 1 = (rdr.remain - 1) + q := by omega
          rw [h1, e1, Nat.add_div_right _ hq,
            Nat.div_eq_of_lt (by omega)]
        · rw [Nat.min_eq_left hge]
          have e1 : rdr.remain - q + q - 1 = rdr.remain - 1 := by omega
          have e2 : rdr.remain + q - 1 = (rdr.remain - 1) + q := by omega
          rw [e1, e2, Nat.add_div_right _ hq]
      · rw [hL1]
        intro s hs
        rcases List.mem_cons.1 hs with h | h
        · rw [h]
          exact hminpos
        · exact ihpos s h
      · rw [hL1, List.chain'_cons']
        refine ⟨?_, ihchain⟩
        intro b hb
        rw [ihhead] at hb
        by_cases hz : rdr.remain - min q rdr.remain = 0
        · rw [if_pos hz] at hb
          simp at hb
        · rw [if_neg hz] at hb
          simp at hb
          have hzz : min q rdr.remain = q := by omega
          omega
      · rw [hL1]
        simp only [List.head?_cons]
        rw [if_neg h0]
      · rw [hL2]
        exact ihrem
      · rw [hL2]
        exact ihcap
      · rw [hL2]
        exact ihper

/-- Claim C4: driving a reader with buffer capacity C, record width W and
R remaining records by repeated `Read` requests of at least
`floor(C/W)` records yields `ceil(R / floor(C/W))` non-empty pulls of
decreasing-or-equal size whose sizes sum to R, followed by exactly one
empty pull (the next `Read` on the final state returns the empty result
with no error). -/
theorem c4_stream_exhaustion (engine : Nat → List Nat) (req fuel : Nat)
    (rdr : TableReader)
    (hq : 0 < rdr.bufferCap / rdr.bytesPerRecord)
    (hreq : rdr.bufferCap / rdr.bytesPerRecord ≤ req)
    (hfuel : rdr.remain ≤ fuel) :
    (readLoop engine req fuel rdr).1.length =
      (rdr.remain + rdr.bufferCap / rdr.bytesPerRecord - 1) /
        (rdr.bufferCap / rdr.bytesPerRecord) ∧
    (∀ s ∈ (readLoop engine req fuel rdr).1, 0 < s) ∧
    (readLoop engine req fuel rdr).1.Chain' (fun a b => b ≤ a) ∧
    (readLoop engine req fuel rdr).1.sum = rdr.remain ∧
    (readLoop engine req fuel rdr).2.Read (fun n => .ok (engine n)) req =
      .ok ([], (readLoop engine req fuel rdr).2) := by
  obtain ⟨hsum, hlen, hpos, hchain, _, hrem, _, hperf⟩ :=
    readLoop_aux engine req (rdr.bufferCap / rdr.bytesPerRecord) hq hreq
      fuel rdr rfl hfuel
  have hper0 : 0 < (readLoop engine req fuel rdr).2.bytesPerRecord := by
    rw [hperf]
    rcases Nat.eq_zero_or_pos rdr.bytesPerRecord with hz | hp
    · rw [hz] at hq
      simp at hq
    · exact hp
  exact ⟨hlen, hpos, hchain, hsum,
    read_exhausted (fun n => .ok (engine n)) _ req hper0 hrem⟩

theorem c4_stream_exhaustion_witness :
    (readLoop engineC4 2 5 rdrC4).1.sum = rdrC4.remain ∧
    (readLoop engineC4 2 5 rdrC4).1.length = 3 := by
  have h := c4_stream_exhaustion engineC4 2 5 rdrC4 (by decide) (by decide)
    (by decide)
  refine ⟨h.2.2.2.1, ?_⟩
  rw [h.1]
  decide

theorem c8_readPacketBytes_witness :
    (Table.ReadPacketBytes engineOkB 0 2).1 = bulkAllocSize ∧
    (Table.ReadPacketBytes engineFailB 0 2).2 = none ∧
    ∃ region, (Table.ReadPacketBytes engineOkB 0 2).2 = some region ∧
      region.length = 2 * bulkBytesPerRecord :=
  ⟨(c8_readPacketBytes engineOkB 0 2 (by decide)).1,
    (c8_readPacketBytes engineFailB 0 2 (by decide)).2.1 (-1) rfl,
    (c8_readPacketBytes engineOkB 0 2 (by decide)).2.2 (fun _ => 0) rfl⟩

end Hdf5Dyn
